import Mathlib

/-!
Shallow embedding of the multi-track editor core in
`src/ClipsCreator/src/app/editor/editor.ts` (class `Editor`).

JavaScript numbers are modelled as `ℚ`; a possibly-NaN number is
`Option ℚ` with `none` standing for NaN.  JavaScript `Math.floor` is
`Int.floor`, `Math.ceil` is `Int.ceil`, and the `%` operator (which
truncates towards zero and keeps the dividend's sign) is `jsMod`
below.  DOM / media-element state is made explicit: each
`HTMLAudioElement` becomes an `AudioTrack` record holding its
`duration` (NaN while metadata is unresolved), `position`
(`currentTime`) and `paused` flag.
-/

namespace ClipsCreator

/-- JavaScript truncation towards zero, as used by the `%` operator. -/
def jsTrunc (q : ℚ) : ℤ := if 0 ≤ q then ⌊q⌋ else ⌈q⌉

/-- JavaScript remainder `a % b`: truncated division, sign of the dividend. -/
def jsMod (a b : ℚ) : ℚ := a - b * jsTrunc (a / b)

/-- `String.padStart(2, '0')` as applied to the seconds string. -/
def padStart2 (s : String) : String :=
  if 2 ≤ s.length then s else ("".pushn '0' (2 - s.length)) ++ s

/-- `formatTime` (editor.ts lines 131-137).  The argument is `none` for
NaN.  The guard `!seconds || isNaN(seconds)` returns `"0:00"` exactly for
`0` and NaN; otherwise minutes are `Math.floor(seconds / 60)` and seconds
`Math.floor(seconds % 60)` padded to two characters. -/
def formatTime (seconds : Option ℚ) : String :=
  match seconds with
  | none => "0:00"
  | some s =>
    if s = 0 then "0:00"
    else
      let mins : ℤ := ⌊s / 60⌋
      let secs : ℤ := ⌊jsMod s 60⌋
      toString mins ++ ":" ++ padStart2 (toString secs)

/-- `updateMaxTimelineDuration` (editor.ts lines 434-437):
`Math.max(...this.trackDurations, 60)`.  The spread of the list followed
by the literal `60` is the fold of binary `max` with base `60`. -/
def updateMaxTimelineDuration (trackDurations : List ℚ) : ℚ :=
  trackDurations.foldr max 60

/-- `updatePlayheadPosition` (editor.ts lines 426-432):
`progress = currentTime / timelineDuration * 100`;
`playheadPosition = Math.min(progress, 100)`. -/
def updatePlayheadPosition (currentTime timelineDuration : ℚ) : ℚ :=
  min (currentTime / timelineDuration * 100) 100

/-- The observable transport state of one `HTMLAudioElement`:
`duration` is `none` while metadata has not resolved (NaN), `position`
is `currentTime`, `paused` the paused flag. -/
structure AudioTrack where
  duration : Option ℚ
  position : ℚ
  paused : Bool
deriving DecidableEq

/-- Body of the `seeked` listener for one audio element (editor.ts
lines 386-397).  `audio.duration` is truthy exactly when it is a known
nonzero number; `targetTime > audio.duration` is false when the
duration is NaN. -/
def seekedTrack (targetTime : ℚ) (audio : AudioTrack) : AudioTrack :=
  match audio.duration with
  | some d =>
    if d ≠ 0 ∧ targetTime ≤ d then { audio with position := targetTime }
    else if d < targetTime then { audio with paused := true }
    else audio
  | none => audio

/-- The `seeked` listener over the whole `audioElements` list. -/
def onSeeked (targetTime : ℚ) (audioElements : List AudioTrack) : List AudioTrack :=
  audioElements.map (seekedTrack targetTime)

/-- Body of the audio loop inside `onSeek` (editor.ts lines 102-106):
same truthiness test as `seekedTrack`, but no `else` branch at all. -/
def onSeekTrack (seekTime : ℚ) (audio : AudioTrack) : AudioTrack :=
  match audio.duration with
  | some d =>
    if d ≠ 0 ∧ seekTime ≤ d then { audio with position := seekTime } else audio
  | none => audio

/-- The audio part of `onSeek` over the whole `audioElements` list. -/
def onSeekAudio (seekTime : ℚ) (audioElements : List AudioTrack) : List AudioTrack :=
  audioElements.map (onSeekTrack seekTime)

/-- The component state touched by the `timeupdate` listener, together
with the audio positions and mute flags the listener could in principle
read. -/
structure SyncState where
  currentTime : ℚ
  playheadPosition : ℚ
  timelineDuration : ℚ
  audioPositions : List ℚ
  mutedTracks : List Bool
deriving DecidableEq

/-- The `timeupdate` listener (editor.ts lines 400-403): copy the video
position into `currentTime` and recompute the playhead.  It touches
nothing else. -/
def onTimeupdate (s : SyncState) (videoTime : ℚ) : SyncState :=
  { s with
    currentTime := videoTime
    playheadPosition := updatePlayheadPosition videoTime s.timelineDuration }

/-- The volume-related component state (`volume`, `isMuted`). -/
structure VolumeState where
  volume : ℚ
  isMuted : Bool
deriving DecidableEq

/-- `toggleMute` (editor.ts lines 109-115). -/
def toggleMute (s : VolumeState) : VolumeState :=
  { s with isMuted := !s.isMuted }

/-- `onVolumeChange` (editor.ts lines 117-129): store the parsed value
and set `isMuted` to `newVolume === 0`. -/
def onVolumeChange (newVolume : ℚ) (s : VolumeState) : VolumeState :=
  { volume := newVolume, isMuted := decide (newVolume = 0) }

/-- The per-track parallel arrays of the component, with opaque file
handles as `ℕ`. -/
structure EditorState where
  selectedVideo : Option ℕ
  selectedAudios : List ℕ
  audioWaveformData : List (List (Option ℚ))
  mutedTracks : List Bool
  audioEnded : List Bool
  trackDurations : List ℚ
deriving DecidableEq

/-- `onVideoSelected` (editor.ts lines 46-53) with a file present:
store the file and set `trackDurations = [0]`. -/
def onVideoSelected (file : ℕ) (s : EditorState) : EditorState :=
  { s with selectedVideo := some file, trackDurations := [0] }

/-- `onAudioSelected` (editor.ts lines 55-66): replace the audio set and
reset the parallel arrays; `this.trackDurations[0] || 0` keeps an
existing video duration (both `undefined` and `0` give `0`). -/
def onAudioSelected (files : List ℕ) (s : EditorState) : EditorState :=
  { s with
    selectedAudios := files
    mutedTracks := List.replicate files.length false
    audioEnded := List.replicate files.length false
    trackDurations := s.trackDurations.getD 0 0 :: List.replicate files.length 0 }

/-- `removeAudioTrack` (editor.ts lines 68-77): one `splice(index, 1)`
per parallel array, `index + 1` for `trackDurations`. -/
def removeAudioTrack (index : ℕ) (s : EditorState) : EditorState :=
  { s with
    selectedAudios := s.selectedAudios.eraseIdx index
    audioWaveformData := s.audioWaveformData.eraseIdx index
    mutedTracks := s.mutedTracks.eraseIdx index
    audioEnded := s.audioEnded.eraseIdx index
    trackDurations := s.trackDurations.eraseIdx (index + 1) }

/-- The parallel-array alignment invariant: `mutedTracks` and
`audioEnded` have one entry per audio track, `trackDurations` one per
audio track plus one for the video. -/
def aligned (s : EditorState) : Prop :=
  s.mutedTracks.length = s.selectedAudios.length ∧
  s.audioEnded.length = s.selectedAudios.length ∧
  s.trackDurations.length = s.selectedAudios.length + 1

instance (s : EditorState) : Decidable (aligned s) := by
  unfold aligned; infer_instance

/-- `generateAudioWaveform`, success path (editor.ts lines 240-251),
as a function of the decoded first-channel samples.  When
`blockSize = 0` (fewer than 200 samples) the JavaScript code computes
`0 / 0 = NaN` for every block, modelled as `none`. -/
def generateAudioWaveform (channelData : List ℚ) : List (Option ℚ) :=
  let blockSize := channelData.length / 200
  (List.range 200).map (fun i =>
    let start := blockSize * i
    let sum := ((List.range blockSize).map
      (fun j => |channelData.getD (start + j) 0|)).sum
    if blockSize = 0 then none else some (sum / blockSize))

/-- The `catch` branch of `generateAudioWaveform` (editor.ts lines
255-262): 200 pseudo-random placeholder values `r * 0.8 + 0.2`, with
`Math.random` abstracted as `rand`. -/
def fallbackWaveform (rand : ℕ → ℚ) : List (Option ℚ) :=
  (List.range 200).map (fun i => some (rand i * (4 / 5) + 1 / 5))

/-- Whole extraction: decoded samples when `decodeAudioData` succeeds,
the placeholder when it throws. -/
def extractWaveform (decoded : Option (List ℚ)) (rand : ℕ → ℚ) : List (Option ℚ) :=
  match decoded with
  | some channelData => generateAudioWaveform channelData
  | none => fallbackWaveform rand

/-- The tick interval of `updateTimeline` (editor.ts line 443):
`Math.max(5, Math.ceil(timelineDuration / 12))`.  Taking `Int.toNat`
is faithful for every `d`: when `⌈d / 12⌉ < 0` both sides of the `max`
give `5`. -/
def tickInterval (d : ℚ) : ℕ :=
  max 5 (⌈d / 12⌉.toNat)

theorem tickInterval_pos (d : ℚ) : 0 < tickInterval d :=
  lt_of_lt_of_le (by norm_num) (le_max_left 5 _)

/-- The marker loop of `updateTimeline` (editor.ts lines 445-447):
`for (let i = 0; i <= timelineDuration; i += interval)` pushing
`formatTime(i)`. -/
def tickLoop (d : ℚ) (interval : ℕ) (hI : 0 < interval) (i : ℕ) : List String :=
  if h : (i : ℚ) ≤ d then
    formatTime (some i) :: tickLoop d interval hI (i + interval)
  else []
termination_by (⌊d⌋ + 1 - i).toNat
decreasing_by
  have hi : (i : ℤ) ≤ ⌊d⌋ := Int.le_floor.mpr (by exact_mod_cast h)
  omega

/-- `updateTimeline` (editor.ts lines 439-448), returning the fresh
`timeMarkers` list. -/
def updateTimeline (d : ℚ) : List String :=
  tickLoop d (tickInterval d) (tickInterval_pos d) 0

/-- The empty component state before any file is selected. -/
def initialEditorState : EditorState :=
  { selectedVideo := none
    selectedAudios := []
    audioWaveformData := []
    mutedTracks := []
    audioEnded := []
    trackDurations := [] }

/-- C1: the shared timeline duration computed by
`updateMaxTimelineDuration` is `max 60` of the maximum stored track
duration (durations are nonnegative, so the fold with base `0` is that
maximum, and the empty list yields the floor `60`); with durations
`[42, 30]` it is `60` and with `[42, 30, 90]` it is `90`. -/
theorem updateMaxTimelineDuration_spec :
    (∀ trackDurations : List ℚ,
      updateMaxTimelineDuration trackDurations =
        max 60 (trackDurations.foldr max 0)) ∧
    updateMaxTimelineDuration [] = 60 ∧
    updateMaxTimelineDuration [42, 30] = 60 ∧
    updateMaxTimelineDuration [42, 30, 90] = 90 := by
  refine ⟨?_, by simp [updateMaxTimelineDuration],
      by simp [updateMaxTimelineDuration, max_def]; norm_num,
      by simp [updateMaxTimelineDuration, max_def]; norm_num⟩
  intro l
  induction l with
  | nil => simp [updateMaxTimelineDuration]
  | cons a l ih =>
    simp only [updateMaxTimelineDuration, List.foldr_cons] at ih ⊢
    rw [ih, max_left_comm]

/-- C8: the playhead percentage is `min 100 (currentTime / duration *
100)`; for a fixed positive duration it is monotone in `currentTime`,
at most `100`, and nonnegative for nonnegative `currentTime`. -/
theorem updatePlayheadPosition_spec (timelineDuration : ℚ)
    (hT : 0 < timelineDuration) (c c' : ℚ) (hc : 0 ≤ c) (hcc' : c ≤ c') :
    updatePlayheadPosition c timelineDuration =
      min 100 (c / timelineDuration * 100) ∧
    updatePlayheadPosition c timelineDuration ≤
      updatePlayheadPosition c' timelineDuration ∧
    updatePlayheadPosition c timelineDuration ≤ 100 ∧
    0 ≤ updatePlayheadPosition c timelineDuration := by
  refine ⟨min_comm _ _, ?_, min_le_right _ _, ?_⟩
  · exact min_le_min
      (by
        have h1 : c / timelineDuration ≤ c' / timelineDuration :=
          (div_le_div_iff_of_pos_right hT).mpr hcc'
        nlinarith) le_rfl
  · exact le_min (by positivity) (by norm_num)

/-- Witness for C8 at duration `60`, positions `30 ≤ 40`. -/
theorem updatePlayheadPosition_spec_witness :
    (0 : ℚ) < 60 ∧ (0 : ℚ) ≤ 30 ∧ (30 : ℚ) ≤ 40 ∧
    updatePlayheadPosition 30 60 ≤ updatePlayheadPosition 40 60 ∧
    updatePlayheadPosition 30 60 ≤ 100 :=
  ⟨by norm_num, by norm_num, by norm_num,
    (updatePlayheadPosition_spec 60 (by norm_num) 30 40 (by norm_num)
      (by norm_num)).2.1,
    (updatePlayheadPosition_spec 60 (by norm_num) 30 40 (by norm_num)
      (by norm_num)).2.2.1⟩

/-- C10: after every call, `onVolumeChange` has stored the parsed
volume and `isMuted` equals `volume = 0` (so volume `0` mutes and any
nonzero volume unmutes, even after a preceding `toggleMute`). -/
theorem onVolumeChange_spec (v : ℚ) (s : VolumeState) :
    (onVolumeChange v s).volume = v ∧
    ((onVolumeChange v s).isMuted = true ↔ v = 0) ∧
    (v ≠ 0 → (onVolumeChange v (toggleMute s)).isMuted = false) := by
  refine ⟨rfl, by simp [onVolumeChange], fun hv => ?_⟩
  simp [onVolumeChange, toggleMute, hv]

/-- Witness for C10: volume `0` mutes; volume `1/2` unmutes even right
after `toggleMute`. -/
theorem onVolumeChange_spec_witness :
    (onVolumeChange 0 ⟨1, false⟩).isMuted = true ∧
    (onVolumeChange (1 / 2) (toggleMute ⟨1, false⟩)).isMuted = false ∧
    (onVolumeChange (1 / 2) ⟨1, true⟩).volume = 1 / 2 :=
  ⟨((onVolumeChange_spec 0 ⟨1, false⟩).2.1).mpr rfl,
    (onVolumeChange_spec (1 / 2) ⟨1, false⟩).2.2 (by norm_num),
    (onVolumeChange_spec (1 / 2) ⟨1, true⟩).1⟩

/-- C2 counterexample: at video time `10` (which satisfies the claimed
half-second cadence test, `10 mod 0.5 = 0`) with one unmuted audio
track whose position `0` drifts from the video by more than `0.1`, the
`timeupdate` handler leaves the track's position at `0` instead of
resnapping it to `10`. -/
theorem onTimeupdate_drift_cex :
    jsMod 10 (1 / 2) = 0 ∧
    (1 / 10 : ℚ) < |(0 : ℚ) - 10| ∧
    (onTimeupdate ⟨0, 0, 60, [0], [false]⟩ 10).mutedTracks = [false] ∧
    (onTimeupdate ⟨0, 0, 60, [0], [false]⟩ 10).audioPositions.getD 0 0 = 0 ∧
    (onTimeupdate ⟨0, 0, 60, [0], [false]⟩ 10).audioPositions.getD 0 0 ≠ 10 := by
  refine ⟨?_, by norm_num [abs_of_nonpos], rfl, rfl, by norm_num [onTimeupdate]⟩
  have h20 : (10 : ℚ) / (1 / 2) = 20 := by norm_num
  have hfl : ⌊(20 : ℚ)⌋ = 20 := by
    rw [Int.floor_eq_iff] <;> norm_num
  simp only [jsMod, jsTrunc, h20, if_pos (by norm_num : (0:ℚ) ≤ 20), hfl]
  norm_num

/-- C2 amended: the `timeupdate` handler only copies the video position
into `currentTime` and recomputes the playhead; it never changes any
audio track position or mute flag (no drift correction exists). -/
theorem onTimeupdate_spec (s : SyncState) (videoTime : ℚ) :
    (onTimeupdate s videoTime).currentTime = videoTime ∧
    (onTimeupdate s videoTime).playheadPosition =
      min 100 (videoTime / s.timelineDuration * 100) ∧
    (onTimeupdate s videoTime).audioPositions = s.audioPositions ∧
    (onTimeupdate s videoTime).mutedTracks = s.mutedTracks ∧
    (onTimeupdate s videoTime).timelineDuration = s.timelineDuration :=
  ⟨rfl, min_comm _ _, rfl, rfl, rfl⟩

/-- C4 counterexample: seeking to `50` with one audio track of duration
`40`, the scrubber handler (`onSeek`) leaves the track playing while
the automatic `seeked` handler pauses it — their effects differ. -/
theorem onSeek_vs_seeked_cex :
    onSeekAudio 50 [⟨some 40, 20, false⟩] ≠
      onSeeked 50 [⟨some 40, 20, false⟩] := by
  decide

/-- C4 amended: `onSeek` applies only the seek half of the per-track
rule: for every target time its effect agrees with the `seeked`
handler on the track's position and duration, but it never changes the
`paused` flag — unlike the `seeked` handler, which pauses a track
whose known duration the target time exceeds; whenever the target time
is within the track's known duration, the two handlers' effects
coincide entirely. -/
theorem onSeek_seek_rule_only (t : ℚ) (audio : AudioTrack) :
    (onSeekTrack t audio).paused = audio.paused ∧
    (onSeekTrack t audio).position = (seekedTrack t audio).position ∧
    (onSeekTrack t audio).duration = (seekedTrack t audio).duration ∧
    ((∀ d : ℚ, audio.duration = some d → t ≤ d) →
      onSeekTrack t audio = seekedTrack t audio) := by
  obtain ⟨dur, pos, p⟩ := audio
  cases dur with
  | none => exact ⟨rfl, rfl, rfl, fun _ => rfl⟩
  | some d =>
    refine ⟨?_, ?_, ?_, ?_⟩
    · simp only [onSeekTrack]
      split <;> rfl
    · simp only [onSeekTrack, seekedTrack]
      split
      · rfl
      · split <;> rfl
    · simp only [onSeekTrack, seekedTrack]
      split
      · rfl
      · split <;> rfl
    · intro h
      have htd : t ≤ d := h d rfl
      simp only [onSeekTrack, seekedTrack]
      split
      · rfl
      · rw [if_neg (not_lt.mpr htd)]

/-- Per-track behaviour of the `seeked` listener, under the media-element
invariants `0 ≤ position ≤ duration` and `0 ≤ targetTime`: a target
within the known duration seeks the track there (for duration `0` the
listener does nothing, but the position already equals the target), a
target beyond it pauses the track without moving it. -/
theorem seekedTrack_spec (targetTime : ℚ) (audio : AudioTrack)
    (ht : 0 ≤ targetTime) (d : ℚ) (hd : audio.duration = some d)
    (hp0 : 0 ≤ audio.position) (hpd : audio.position ≤ d) :
    (targetTime ≤ d → (seekedTrack targetTime audio).position = targetTime) ∧
    (d < targetTime → (seekedTrack targetTime audio).paused = true ∧
      (seekedTrack targetTime audio).position = audio.position) := by
  obtain ⟨dur, pos, p⟩ := audio
  simp only at hd hp0 hpd
  subst hd
  constructor
  · intro htd
    by_cases hd0 : d = 0
    · subst hd0
      have ht0 : targetTime = 0 := le_antisymm htd ht
      have hpos0 : pos = 0 := le_antisymm hpd hp0
      simp [seekedTrack, ht0, hpos0]
    · simp [seekedTrack, hd0, htd]
  · intro hdt
    have h1 : ¬ (d ≠ 0 ∧ targetTime ≤ d) := by
      rintro ⟨-, h2⟩
      exact absurd hdt (not_lt.mpr h2)
    simp [seekedTrack, h1, hdt]

/-- C3: on `seeked` with target time `t ≥ 0`, every audio track with
known duration `d` and valid position is seeked to `t` when `t ≤ d` and
paused (without moving) when `t > d`. -/
theorem onSeeked_spec (targetTime : ℚ) (audioElements : List AudioTrack)
    (ht : 0 ≤ targetTime) (i : ℕ) (hi : i < audioElements.length)
    (d : ℚ) (hd : (audioElements.getD i ⟨none, 0, false⟩).duration = some d)
    (hp0 : 0 ≤ (audioElements.getD i ⟨none, 0, false⟩).position)
    (hpd : (audioElements.getD i ⟨none, 0, false⟩).position ≤ d) :
    (targetTime ≤ d →
      ((onSeeked targetTime audioElements).getD i
        ⟨none, 0, false⟩).position = targetTime) ∧
    (d < targetTime →
      ((onSeeked targetTime audioElements).getD i
        ⟨none, 0, false⟩).paused = true ∧
      ((onSeeked targetTime audioElements).getD i ⟨none, 0, false⟩).position =
        (audioElements.getD i ⟨none, 0, false⟩).position) := by
  have hlen : i < (onSeeked targetTime audioElements).length := by
    simpa [onSeeked] using hi
  have hmap : (onSeeked targetTime audioElements).getD i ⟨none, 0, false⟩ =
      seekedTrack targetTime (audioElements.getD i ⟨none, 0, false⟩) := by
    rw [List.getD_eq_getElem _ _ hlen, List.getD_eq_getElem _ _ hi]
    simp [onSeeked]
  rw [hmap]
  exact seekedTrack_spec targetTime _ ht d hd hp0 hpd

/-- Witness for C3: seeking to `50` with one audio track of duration
`40` pauses that track without moving it. -/
theorem onSeeked_spec_witness :
    ((onSeeked 50 [⟨some 40, 20, false⟩]).getD 0
      ⟨none, 0, false⟩).paused = true ∧
    ((onSeeked 50 [⟨some 40, 20, false⟩]).getD 0
      ⟨none, 0, false⟩).position = 20 := by
  have h := (onSeeked_spec 50 [⟨some 40, 20, false⟩] (by norm_num) 0
    (by norm_num) 40 rfl (by decide) (by decide)).2 (by norm_num)
  exact ⟨h.1, h.2⟩

/-- C6 counterexample: a negative input is not mapped to `"0:00"`:
`formatTime(-61)` is `"-2:-1"`. -/
theorem formatTime_negative_cex : formatTime (some (-61)) ≠ "0:00" := by
  have hceil : ⌈(-61 : ℚ) / 60⌉ = -1 := by
    rw [Int.ceil_eq_iff] <;> norm_num
  have hmod : jsMod (-61) 60 = -1 := by
    rw [jsMod, jsTrunc, if_neg (by norm_num : ¬ (0 : ℚ) ≤ -61 / 60), hceil]
    norm_num
  have hfl : ⌊(-61 : ℚ) / 60⌋ = -2 := by
    rw [Int.floor_eq_iff] <;> norm_num
  have hstr : formatTime (some (-61)) = "-2:-1" := by
    simp only [formatTime]
    rw [if_neg (by norm_num : ¬ (-61 : ℚ) = 0), hfl, hmod,
      show ⌊(-1 : ℚ)⌋ = -1 from Int.floor_eq_iff.mpr (by norm_num)]
    decide
  rw [hstr]
  decide

/-- C6 amended: `formatTime` returns `"0:00"` for `0` and NaN, and for
every positive `t` returns `floor(t/60)`, a colon, and `floor(t) mod
60` zero-padded to two digits; negative inputs are not guarded (see the
counterexample). -/
theorem formatTime_spec (t : ℚ) (ht : 0 < t) :
    formatTime none = "0:00" ∧
    formatTime (some 0) = "0:00" ∧
    formatTime (some t) =
      toString ⌊t / 60⌋ ++ ":" ++ padStart2 (toString (⌊t⌋ % 60)) := by
  refine ⟨rfl, by simp [formatTime], ?_⟩
  have h1 : ((⌊t / 60⌋ : ℚ)) ≤ t / 60 := Int.floor_le _
  have h2 : t / 60 < ⌊t / 60⌋ + 1 := Int.lt_floor_add_one _
  have hb1 : (60 : ℚ) * ⌊t / 60⌋ ≤ t := by
    have := mul_le_mul_of_nonneg_left h1 (by norm_num : (0 : ℚ) ≤ 60)
    calc (60 : ℚ) * ⌊t / 60⌋ ≤ 60 * (t / 60) := this
      _ = t := by ring
  have hb2 : t < 60 * ⌊t / 60⌋ + 60 := by
    have := mul_lt_mul_of_pos_left h2 (by norm_num : (0 : ℚ) < 60)
    calc t = 60 * (t / 60) := by ring
      _ < 60 * (⌊t / 60⌋ + 1) := this
      _ = 60 * ⌊t / 60⌋ + 60 := by ring
  have hF1 : 60 * ⌊t / 60⌋ ≤ ⌊t⌋ := Int.le_floor.mpr (by push_cast; linarith)
  have hF2 : ⌊t⌋ < 60 * ⌊t / 60⌋ + 60 := Int.floor_lt.mpr (by push_cast; linarith)
  have hsecs : ⌊jsMod t 60⌋ = ⌊t⌋ % 60 := by
    have htr : jsTrunc (t / 60) = ⌊t / 60⌋ := by
      rw [jsTrunc, if_pos (by positivity)]
    have : jsMod t 60 = t - ((60 * ⌊t / 60⌋ : ℤ) : ℚ) := by
      rw [jsMod, htr]; push_cast; ring
    rw [this, Int.floor_sub_int]
    omega
  simp only [formatTime]
  rw [if_neg (ne_of_gt ht), hsecs]

/-- Witness for C6's amended theorem: `formatTime(125) = "2:05"`. -/
theorem formatTime_spec_witness :
    (0 : ℚ) < 125 ∧ formatTime (some 125) = "2:05" := by
  refine ⟨by norm_num, ?_⟩
  have h := (formatTime_spec 125 (by norm_num)).2.2
  rw [h, show ⌊(125 : ℚ) / 60⌋ = 2 from Int.floor_eq_iff.mpr (by norm_num),
    show ⌊(125 : ℚ)⌋ = 125 from Int.floor_eq_iff.mpr (by norm_num)]
  decide

/-- Witness for C4's amended theorem: at `t = 50`, duration `40`
(beyond the duration) `onSeek` keeps the track unpaused and agrees on
position; at `t = 30` (within the duration) the two handlers coincide
entirely. -/
theorem onSeek_seek_rule_only_witness :
    (onSeekTrack 50 ⟨some 40, 20, false⟩).paused = false ∧
    (onSeekTrack 50 ⟨some 40, 20, false⟩).position =
      (seekedTrack 50 ⟨some 40, 20, false⟩).position ∧
    onSeekTrack 30 ⟨some 40, 20, false⟩ = seekedTrack 30 ⟨some 40, 20, false⟩ := by
  have h50 := onSeek_seek_rule_only 50 ⟨some 40, 20, false⟩
  have h30 := (onSeek_seek_rule_only 30 ⟨some 40, 20, false⟩).2.2.2
    (fun d hd => by
      simp only [Option.some.injEq] at hd
      rw [← hd]; norm_num)
  exact ⟨h50.1, h50.2.1, h30⟩

/-- C5 (code bug): from the empty state, selecting a video and then one
audio track yields aligned parallel arrays, but selecting a (new) video
afterwards resets `trackDurations` to the single entry `[0]` while one
audio track is still selected, breaking the alignment invariant. -/
theorem onVideoSelected_breaks_alignment :
    aligned (onAudioSelected [5] (onVideoSelected 3 initialEditorState)) ∧
    ¬ aligned (onVideoSelected 4
      (onAudioSelected [5] (onVideoSelected 3 initialEditorState))) := by
  constructor
  · unfold aligned
    exact ⟨rfl, rfl, rfl⟩
  · intro h
    unfold aligned at h
    simp [onVideoSelected, onAudioSelected, initialEditorState] at h

/-- The inner sample loop of `generateAudioWaveform`, which reads the
block by index, sums exactly the `i`-th contiguous block of the sample
list. -/
theorem range_map_abs_getD_eq (l : List ℚ) (s B : ℕ) (h : s + B ≤ l.length) :
    (List.range B).map (fun j => |l.getD (s + j) 0|) =
      ((l.drop s).take B).map (fun x => |x|) := by
  apply List.ext_getElem
  · simp only [List.length_map, List.length_range, List.length_take,
      List.length_drop]
    omega
  · intro k h1 h2
    simp only [List.length_map, List.length_range] at h1
    simp only [List.getElem_map, List.getElem_range, List.getElem_take,
      List.getElem_drop]
    rw [List.getD_eq_getElem _ _ (by omega)]

set_option maxRecDepth 10000 in
/-- C9 counterexample: on a decoded sample sequence of fewer than 200
samples (here 100 zero samples) `blockSize` is `0`, every block value
is `0 / 0 = NaN`, and the output values are not rationals in `[0, 1]`. -/
theorem generateAudioWaveform_short_cex :
    ¬ (∀ v ∈ generateAudioWaveform (List.replicate 100 (0 : ℚ)),
        ∃ q : ℚ, v = some q ∧ 0 ≤ q ∧ q ≤ 1) := by
  intro hall
  have hlen : 0 < (generateAudioWaveform (List.replicate 100 (0 : ℚ))).length := by
    decide
  have h0 : (generateAudioWaveform (List.replicate 100 (0 : ℚ))).getD 0
      (some 0) = none := by
    decide
  rw [List.getD_eq_getElem _ _ hlen] at h0
  have hmem : (none : Option ℚ) ∈
      generateAudioWaveform (List.replicate 100 (0 : ℚ)) :=
    h0 ▸ List.getElem_mem hlen
  obtain ⟨q, hq, -, -⟩ := hall none hmem
  exact Option.noConfusion hq

/-- C9 amended: extraction always yields exactly 200 values and never
fails (decode failure falls back to the placeholder); when at least 200
samples are decoded and every sample lies in `[-1, 1]`, the `i`-th
value is the mean absolute amplitude of the `i`-th contiguous block of
`blockSize = sampleCount / 200` samples and lies in `[0, 1]`.  (With
fewer than 200 samples the 200 values are all NaN, see the
counterexample.) -/
theorem extractWaveform_spec (decoded : Option (List ℚ)) (rand : ℕ → ℚ) :
    (extractWaveform decoded rand).length = 200 ∧
    ∀ channelData : List ℚ, decoded = some channelData →
      200 ≤ channelData.length →
      (∀ x ∈ channelData, |x| ≤ 1) →
      ∀ i : ℕ, i < 200 →
      ∃ q : ℚ, (generateAudioWaveform channelData).getD i none = some q ∧
        q = (((channelData.drop (channelData.length / 200 * i)).take
              (channelData.length / 200)).map (fun x => |x|)).sum /
            ((channelData.length / 200 : ℕ) : ℚ) ∧
        0 ≤ q ∧ q ≤ 1 := by
  refine ⟨?_, ?_⟩
  · cases decoded with
    | none => simp [extractWaveform, fallbackWaveform]
    | some channelData => simp [extractWaveform, generateAudioWaveform]
  intro channelData hdec hlen hamp i hi
  have hBpos : 0 < channelData.length / 200 :=
    Nat.div_pos hlen (by norm_num)
  have hrange : channelData.length / 200 * i + channelData.length / 200 ≤
      channelData.length := by
    have h1 : channelData.length / 200 * (i + 1) ≤
        channelData.length / 200 * 200 :=
      Nat.mul_le_mul_left _ hi
    have h2 : channelData.length / 200 * 200 ≤ channelData.length :=
      Nat.div_mul_le_self _ _
    have h3 : channelData.length / 200 * i + channelData.length / 200 =
        channelData.length / 200 * (i + 1) := by ring
    omega
  have hilen : i < (generateAudioWaveform channelData).length := by
    simpa [generateAudioWaveform] using hi
  have hval : (generateAudioWaveform channelData).getD i none =
      some (((List.range (channelData.length / 200)).map
          (fun j => |channelData.getD (channelData.length / 200 * i + j) 0|)).sum /
        ((channelData.length / 200 : ℕ) : ℚ)) := by
    rw [List.getD_eq_getElem _ _ hilen]
    simp only [generateAudioWaveform, List.getElem_map, List.getElem_range]
    rw [if_neg hBpos.ne']
  rw [hval, range_map_abs_getD_eq _ _ _ hrange]
  refine ⟨_, rfl, rfl, ?_, ?_⟩
  · apply div_nonneg _ (by positivity)
    apply List.sum_nonneg
    intro x hx
    obtain ⟨y, -, rfl⟩ := List.mem_map.mp hx
    exact abs_nonneg y
  · rw [div_le_one (by exact_mod_cast hBpos)]
    have hL : (((channelData.drop (channelData.length / 200 * i)).take
        (channelData.length / 200)).map (fun x => |x|)).length =
        channelData.length / 200 := by
      simp only [List.length_map, List.length_take, List.length_drop]
      omega
    have hle := List.sum_le_card_nsmul
      (((channelData.drop (channelData.length / 200 * i)).take
        (channelData.length / 200)).map (fun x => |x|)) 1 ?_
    · rw [hL] at hle
      simpa [nsmul_eq_mul] using hle
    · intro x hx
      obtain ⟨y, hy, rfl⟩ := List.mem_map.mp hx
      exact hamp y (List.drop_subset _ _ (List.take_subset _ _ hy))

set_option maxRecDepth 10000 in
/-- Witness for C9's amended theorem: the decode-failure fallback also
has 200 values, and on 200 zero samples the first block value is `0`,
a rational in `[0, 1]`. -/
theorem extractWaveform_spec_witness :
    (extractWaveform none (fun k => 0)).length = 200 ∧
    (extractWaveform (some (List.replicate 200 (0 : ℚ)))
      (fun k => 0)).length = 200 ∧
    (generateAudioWaveform (List.replicate 200 (0 : ℚ))).getD 0 none =
      some 0 := by
  obtain ⟨hlen, hrest⟩ := extractWaveform_spec
    (some (List.replicate 200 (0 : ℚ))) (fun k => 0)
  obtain ⟨q, hq, hform, hq0, hq1⟩ := hrest (List.replicate 200 (0 : ℚ)) rfl
    (by simp)
    (by
      intro x hx
      rw [List.eq_of_mem_replicate hx]
      norm_num) 0 (by norm_num)
  refine ⟨(extractWaveform_spec none (fun k => 0)).1, hlen, ?_⟩
  rw [hq, hform]
  norm_num

/-- The marker loop stops as soon as the tick time passes the
duration. -/
theorem tickLoop_stop (d : ℚ) (I : ℕ) (hI : 0 < I) (i : ℕ)
    (h : ¬ (i : ℚ) ≤ d) : tickLoop d I hI i = [] := by
  rw [tickLoop]
  exact dif_neg h

/-- Characterization of the marker loop from position `i ≤ d`: it emits
the formatted labels of `i, i + I, i + 2I, ...`, exactly
`⌊(d - i) / I⌋ + 1` of them. -/
theorem tickLoop_eq_aux (d : ℚ) (I : ℕ) (hI : 0 < I) :
    ∀ (n i : ℕ), (⌊d⌋ + 1 - (i : ℤ)).toNat ≤ n → (i : ℚ) ≤ d →
      tickLoop d I hI i =
        (List.range ((⌊(d - i) / I⌋).toNat + 1)).map
          (fun k => formatTime (some ((i + k * I : ℕ) : ℚ))) := by
  intro n
  induction n with
  | zero =>
    intro i hn hid
    have hfl : (i : ℤ) ≤ ⌊d⌋ := Int.le_floor.mpr (by exact_mod_cast hid)
    omega
  | succ n ih =>
    intro i hn hid
    have hfl : (i : ℤ) ≤ ⌊d⌋ := Int.le_floor.mpr (by exact_mod_cast hid)
    have hIQ : (0 : ℚ) < I := by exact_mod_cast hI
    rw [tickLoop, dif_pos hid]
    by_cases hnext : ((i + I : ℕ) : ℚ) ≤ d
    · have hfl2 : ((i : ℤ) + I) ≤ ⌊d⌋ :=
        Int.le_floor.mpr (by push_cast; push_cast at hnext; linarith)
      rw [ih (i + I) (by omega) hnext]
      have hquot : ⌊(d - (i : ℚ)) / I⌋ = ⌊(d - ((i : ℚ) + I)) / I⌋ + 1 := by
        have harg : (d - ((i : ℚ) + I)) / I = (d - i) / I - ((1 : ℤ) : ℚ) := by
          push_cast
          field_simp
          ring
        rw [harg, Int.floor_sub_int]
        omega
      have hnn : 0 ≤ ⌊(d - ((i : ℚ) + I)) / I⌋ := by
        apply Int.floor_nonneg.mpr
        apply div_nonneg _ hIQ.le
        push_cast at hnext ⊢
        linarith
      have hcnt : (⌊(d - (i : ℚ)) / I⌋).toNat + 1 =
          ((⌊(d - ((i : ℚ) + I)) / I⌋).toNat + 1) + 1 := by omega
      push_cast
      rw [hcnt]
      conv_rhs => rw [List.range_succ_eq_map, List.map_cons, List.map_map]
      congr 1
      · norm_num
      · apply List.map_congr_left
        intro k hk
        simp only [Function.comp_apply]
        congr 2
        push_cast [Nat.succ_eq_add_one]
        ring
    · have hm0 : ⌊(d - (i : ℚ)) / I⌋ = 0 := by
        rw [Int.floor_eq_iff]
        constructor
        · push_cast
          apply div_nonneg _ hIQ.le
          linarith
        · have hlt : (d - (i : ℚ)) / I < 1 := by
            rw [div_lt_one hIQ]
            push_cast at hnext
            linarith
          push_cast
          linarith
      rw [tickLoop_stop d I hI _ hnext, hm0]
      simp [List.range_succ]

/-- C7: for `d ≥ 0`, `updateTimeline` produces exactly the formatted
labels of `t = 0, I, 2I, ...` for the `⌊d / I⌋ + 1` values `t ≤ d`,
where `I = max 5 ⌈d / 12⌉`; in particular the marker count is
`⌊d / I⌋ + 1` and the last marker's time value is at most `d`. -/
theorem updateTimeline_spec (d : ℚ) (hd : 0 ≤ d) :
    updateTimeline d =
      (List.range ((⌊d / (tickInterval d : ℚ)⌋).toNat + 1)).map
        (fun k => formatTime (some ((k * tickInterval d : ℕ) : ℚ))) ∧
    (updateTimeline d).length = (⌊d / (tickInterval d : ℚ)⌋).toNat + 1 ∧
    (((⌊d / (tickInterval d : ℚ)⌋).toNat * tickInterval d : ℕ) : ℚ) ≤ d := by
  have h0 : ((0 : ℕ) : ℚ) ≤ d := by exact_mod_cast hd
  have haux := tickLoop_eq_aux d (tickInterval d) (tickInterval_pos d)
    ((⌊d⌋ + 1 - 0).toNat) 0 le_rfl h0
  have hIQ : (0 : ℚ) < (tickInterval d : ℚ) := by
    exact_mod_cast tickInterval_pos d
  have heq : updateTimeline d =
      (List.range ((⌊d / (tickInterval d : ℚ)⌋).toNat + 1)).map
        (fun k => formatTime (some ((k * tickInterval d : ℕ) : ℚ))) := by
    rw [updateTimeline, haux]
    simp
  refine ⟨heq, by rw [heq]; simp, ?_⟩
  have hfl : (0 : ℤ) ≤ ⌊d / (tickInterval d : ℚ)⌋ :=
    Int.floor_nonneg.mpr (div_nonneg hd hIQ.le)
  have hle : ((⌊d / (tickInterval d : ℚ)⌋ : ℚ)) ≤ d / (tickInterval d : ℚ) :=
    Int.floor_le _
  have : ((⌊d / (tickInterval d : ℚ)⌋ : ℚ)) * (tickInterval d : ℚ) ≤ d :=
    (le_div_iff hIQ).mp hle
  push_cast
  calc ((⌊d / (tickInterval d : ℚ)⌋.toNat : ℚ)) * (tickInterval d : ℚ)
      = ((⌊d / (tickInterval d : ℚ)⌋ : ℚ)) * (tickInterval d : ℚ) := by
        congr 1
        exact_mod_cast Int.toNat_of_nonneg hfl
    _ ≤ d := this

/-- Witness for C7 at `d = 60`: the interval is `5` and there are 13
markers. -/
theorem updateTimeline_spec_witness :
    (0 : ℚ) ≤ 60 ∧ (updateTimeline 60).length = 13 := by
  refine ⟨by norm_num, ?_⟩
  have h := (updateTimeline_spec 60 (by norm_num)).2.1
  have hI : tickInterval 60 = 5 := by
    have hc : ⌈(60 : ℚ) / 12⌉ = 5 := by
      rw [Int.ceil_eq_iff] <;> norm_num
    rw [tickInterval, hc]
    decide
  rw [h, hI]
  have hfl : ⌊(60 : ℚ) / ((5 : ℕ) : ℚ)⌋ = 12 := by
    rw [Int.floor_eq_iff] <;> norm_num
  rw [hfl]
  decide

end ClipsCreator
